import Mathlib

/-!
Verification development for the photo-frame catalog, reconciliation and
slideshow code (Go sources under `store/`, `api/`, `slideshow/`, `util/`).
Each Go function used by a claim is shallowly embedded as an executable
Lean definition over an explicit table / directory-listing state.
-/

namespace DPF

/-- A row of the `photos` table: `photos(photo_name, category, "order")`,
primary key `(photo_name, category)` (src/store/database.go, `createTable`). -/
structure Photo where
  photoName : String
  category : Int
  order : Int
deriving Repr, DecidableEq

/-- The `photos` table, as the list of its rows (in insertion order). -/
abbrev Table := List Photo

/-- `PhotoExists` (src/store/database.go:502-510): `SELECT COUNT(*) ... WHERE
photo_name = ? AND category = ?`, returning whether the count is positive. -/
def photoExists (name : String) (category : Int) (t : Table) : Bool :=
  t.any (fun p => p.photoName == name && p.category == category)

/-- Multiset of `"order"` values of one category's rows (the column the
store's `MAX`/density facts range over). -/
def ordersOf (category : Int) (t : Table) : List Int :=
  (t.filter (fun p => p.category == category)).map (·.order)

/-- `GetMaxOrder` (src/store/database.go:492-500):
`SELECT COALESCE(MAX("order"), -1) FROM photos WHERE category = ?`, plus one. -/
def getMaxOrder (category : Int) (t : Table) : Int :=
  (ordersOf category t).foldl max (-1) + 1

/-- `InsertPhoto` (src/store/database.go:395-402): a plain `INSERT`; the
primary key `(photo_name, category)` makes it fail on a duplicate key. -/
def insertPhoto (name : String) (category order : Int) (t : Table) :
    Except String Table :=
  if photoExists name category t then .error "failed to insert photo"
  else .ok (t ++ [⟨name, category, order⟩])

/-- `GetPhoto` (src/store/database.go:512-523): `QueryRow` over
`WHERE photo_name = ? AND category = ?` — the first matching row, if any. -/
def getPhoto (name : String) (category : Int) (t : Table) : Option Photo :=
  t.find? (fun p => p.photoName == name && p.category == category)

/-- `DeletePhoto` (src/store/database.go:473-490): `DELETE ... WHERE
photo_name = ? AND category = ?`; zero rows affected is an error. -/
def deletePhoto (name : String) (category : Int) (t : Table) :
    Except String Table :=
  if (t.filter (fun p => !(p.photoName == name && p.category == category))).length
      == t.length
  then .error "photo not found"
  else .ok (t.filter (fun p => !(p.photoName == name && p.category == category)))

/-- First shift of `UpdatePhotoOrder` (src/store/database.go:546-556), taken
when moving to a higher order: `UPDATE photos SET "order" = "order" - 1
WHERE category = ? AND "order" > ? AND "order" <= ?`. -/
def shiftDown (category oldOrder newOrder : Int) (t : Table) : Table :=
  t.map (fun p =>
    if p.category = category ∧ oldOrder < p.order ∧ p.order ≤ newOrder
    then { p with order := p.order - 1 } else p)

/-- Second shift of `UpdatePhotoOrder` (src/store/database.go:557-568), taken
when moving to a lower order: `UPDATE photos SET "order" = "order" + 1
WHERE category = ? AND "order" >= ? AND "order" < ?`. -/
def shiftUp (category newOrder oldOrder : Int) (t : Table) : Table :=
  t.map (fun p =>
    if p.category = category ∧ newOrder ≤ p.order ∧ p.order < oldOrder
    then { p with order := p.order + 1 } else p)

/-- Final step of `UpdatePhotoOrder` (src/store/database.go:570-575):
`UPDATE photos SET "order" = ? WHERE photo_name = ?` — note: no category
filter, so it hits every row carrying that photo name. -/
def setOrderByName (name : String) (newOrder : Int) (t : Table) : Table :=
  t.map (fun p => if p.photoName = name then { p with order := newOrder } else p)

/-- `UpdatePhotoOrder` (src/store/database.go:525-583): look the photo up,
no-op when the order is unchanged, otherwise shift the span between the old
and new order within the category and then set the target's order by name. -/
def updatePhotoOrder (name : String) (newOrder : Int) (category : Int)
    (t : Table) : Except String Table :=
  match getPhoto name category t with
  | none => .error ("photo not found: " ++ name)
  | some photo =>
    let oldOrder := photo.order
    if oldOrder = newOrder then .ok t
    else
      let shifted :=
        if oldOrder < newOrder then shiftDown category oldOrder newOrder t
        else shiftUp category newOrder oldOrder t
      .ok (setOrderByName name newOrder shifted)

/-- Integers `0, 1, ..., n-1`, the dense order set of a category with `n`
rows. -/
def rangeList (n : Nat) : List Int := (List.range n).map (fun i : Nat => (i : Int))

/-- Density invariant of §3 of the spec: a category's multiset of orders is
exactly `{0, ..., count-1}`. -/
def dense (category : Int) (t : Table) : Prop :=
  (ordersOf category t).Perm (rangeList (ordersOf category t).length)

instance (category : Int) (t : Table) : Decidable (dense category t) :=
  inferInstanceAs (Decidable (List.Perm _ _))

/-- Uniqueness of the table's primary key `(photo_name, category)` — the
constraint SQLite enforces from `createTable`. -/
def pkNodup (t : Table) : Prop :=
  (t.map (fun p => (p.photoName, p.category))).Nodup

instance (t : Table) : Decidable (pkNodup t) :=
  inferInstanceAs (Decidable (List.Nodup _))

/-- The per-order action of one `UpdatePhotoOrder` call on a category whose
orders are pairwise distinct: the old order goes to the new one, the span in
between shifts by one towards the vacated slot, everything else stays. -/
def shiftFn (oldOrder newOrder : Int) (o : Int) : Int :=
  if o = oldOrder then newOrder
  else if oldOrder < o ∧ o ≤ newOrder then o - 1
  else if newOrder ≤ o ∧ o < oldOrder then o + 1
  else o

/-- How one row of the affected category relates to its pre-call value after
`UpdatePhotoOrder` moves the record named `name` from `oldOrder` to
`newOrder` (the wording of §4.1 of the spec). -/
def reorderedRow (name : String) (category oldOrder newOrder : Int)
    (q q' : Photo) : Prop :=
  q'.photoName = q.photoName ∧ q'.category = q.category ∧
  (q.category = category →
    (q.photoName = name → q'.order = newOrder) ∧
    (q.photoName ≠ name →
      (oldOrder < newOrder ∧ oldOrder < q.order ∧ q.order ≤ newOrder →
        q'.order = q.order - 1) ∧
      (newOrder < oldOrder ∧ newOrder ≤ q.order ∧ q.order < oldOrder →
        q'.order = q.order + 1) ∧
      (¬(oldOrder < newOrder ∧ oldOrder < q.order ∧ q.order ≤ newOrder) ∧
       ¬(newOrder < oldOrder ∧ newOrder ≤ q.order ∧ q.order < oldOrder) →
        q'.order = q.order)))

/-! ### Go string helpers (`path/filepath`, `strings`) -/

/-- `filepath.Ext` (Go stdlib): the suffix of the name beginning at its final
dot, or `""` when the name holds no dot. -/
def goExt (s : String) : String :=
  let r := s.toList.reverse
  let pre := r.takeWhile (fun c => c ≠ '.')
  if pre.length = r.length then "" else String.mk ('.' :: pre.reverse)

/-- `strings.Trim` (Go stdlib): drops every leading and trailing character
that occurs in `cutset` — a character-set trim, not a suffix trim. -/
def goTrim (s cutset : String) : String :=
  let cs := cutset.toList
  let l := s.toList.dropWhile (fun c => cs.contains c)
  String.mk (l.reverse.dropWhile (fun c => cs.contains c)).reverse

/-- `strings.TrimSuffix` (Go stdlib): drops `suf` when it is a suffix. -/
def goTrimSuffix (s suf : String) : String :=
  if suf.toList.isSuffixOf s.toList then
    String.mk (s.toList.take (s.toList.length - suf.toList.length))
  else s

/-- ASCII lower-casing, used to phrase the spec's "case-insensitive"
extension comparison. -/
def charLower (c : Char) : Char :=
  if 'A' ≤ c ∧ c ≤ 'Z' then Char.ofNat (c.toNat + 32) else c

/-- Lower-case every character of a string (spec's case-insensitive view). -/
def strLower (s : String) : String := String.mk (s.toList.map charLower)

/-! ### Supported image extensions -/

/-- `util.SupportedExt` (src/unnamed/part_005): the literal member set of the
extension allow-list used by upload validation, photo registration and the
local reconciliation listing. -/
def supportedExtList : List String :=
  [".jpeg", ".jpg", ".JPEG", ".JPG", ".png", ".PNG"]

/-- `util.SupportedExt.Contains` — exact membership in the literal set. -/
def supportedExtContains (e : String) : Bool := supportedExtList.contains e

/-- `supportedExt` (src/unnamed/part_003 and src/api/remotemanager.go): the
remote reconciliation engine's own copy of the same literal set. -/
def supportedExtRemoteList : List String :=
  [".jpeg", ".jpg", ".JPEG", ".JPG", ".png", ".PNG"]

/-- Membership check used by `getLocalFiles` / `getRemoteFiles`. -/
def supportedExtRemoteContains (e : String) : Bool :=
  supportedExtRemoteList.contains e

/-- The extension validation performed by `handleUpload` and
`handleRegisterPhoto` (src/api/server.go): `util.SupportedExt.Contains(ext)`
on `ext := filepath.Ext(filename)`. -/
def uploadExtOk (name : String) : Bool := supportedExtContains (goExt name)

/-- Modelled from the spec's words ("Supported image extensions: `.jpg,
.jpeg, .png` (case-insensitive)"), for comparison with `uploadExtOk`. -/
def caseInsensitiveExtOk (name : String) : Bool :=
  [".jpg", ".jpeg", ".png"].contains (strLower (goExt name))

/-! ### Registration and catalog operation sequences -/

/-- The catalog effect of the registration path (`handleRegisterPhoto`,
src/api/server.go:1193-1265, reached via the client's
`RegisterPhotoIfNotExists`): reject an unsupported extension, skip an
already-registered `(name, category)`, otherwise insert at `GetMaxOrder`.
The handler's check that the photo file exists on disk is a no-failure
assumption here (callers register files they just listed or downloaded). -/
def registerPhotoIfNotExists (name : String) (category : Int) (t : Table) :
    Table :=
  if !(supportedExtContains (goExt name)) then t
  else if photoExists name category t then t
  else
    match insertPhoto name category (getMaxOrder category t) t with
    | .ok t' => t'
    | .error _ => t

/-- One catalog mutation of claim C1's sequences: a registration (insert at
the order returned by `GetMaxOrder`) or a reorder call. -/
inductive CatalogOp where
  | register (name : String)
  | reorder (name : String) (newOrder : Int)
deriving Repr, DecidableEq

/-- Run one operation against the table; a failed call leaves the table
unchanged (the store rolls the transaction back). -/
def runOp (category : Int) (t : Table) : CatalogOp → Table
  | .register name => registerPhotoIfNotExists name category t
  | .reorder name newOrder =>
    match updatePhotoOrder name newOrder category t with
    | .ok t' => t'
    | .error _ => t

/-- Run a sequence of catalog operations within one category. -/
def runOps (category : Int) (t : Table) (ops : List CatalogOp) : Table :=
  ops.foldl (runOp category) t

/-- Every reorder in the sequence carries a target order that is in range for
the category at the moment of the call — the validation `handleReorderPhoto`
(src/api/server.go:1388-1412) performs before calling `UpdatePhotoOrder`. -/
def validOps (category : Int) (t : Table) : List CatalogOp → Bool
  | [] => true
  | op :: rest =>
    (match op with
     | CatalogOp.register _ => true
     | CatalogOp.reorder _ newOrder =>
       decide (0 ≤ newOrder) && decide (newOrder < getMaxOrder category t)) &&
    validOps category (runOp category t op) rest

/-! ### Playlist construction (src/api/server.go) -/

/-- The comparison realizing `ORDER BY "order" DESC` of `GetAllPhotos`. -/
def photoDescBy (a b : Photo) : Bool := b.order ≤ a.order

/-- `GetAllPhotos` (src/store/database.go:434-461): the category's rows,
ordered by `"order"` descending. -/
def getAllPhotos (category : Int) (t : Table) : List Photo :=
  (t.filter (fun p => p.category == category)).mergeSort photoDescBy

/-- `getAllImages` (src/api/server.go:1000-1012): category 0 (Surprise)
first, then category 1 (Library). -/
def getAllImages (t : Table) : List Photo := getAllPhotos 0 t ++ getAllPhotos 1 t

/-- `buildImgPathFromPhoto` (src/api/server.go:1030-1045): path of the
rotated `_IMGP` artifact for a record, by category. -/
def buildImgPathFromPhoto (rootPath : String) (photo : Photo) : String :=
  let baseName := goTrimSuffix photo.photoName (goExt photo.photoName)
  let rotatedName := baseName ++ "_IMGP" ++ goExt photo.photoName
  if photo.category = 0 then rootPath ++ "/photos/surprise/" ++ rotatedName
  else rootPath ++ "/photos/" ++ rotatedName

/-- `GetImgPaths` (src/api/server.go:1018-1028). -/
def getImgPaths (rootPath : String) (t : Table) : List String :=
  (getAllImages t).map (buildImgPathFromPhoto rootPath)

/-! ### Local reconciliation: capacity eviction (src/api/localmanager.go) -/

/-- One inbox file as `scanAndRegister` sees it: name and modification time
(modelled as a totally ordered stamp). -/
structure FileEntry where
  name : String
  modTime : Nat
deriving Repr, DecidableEq

/-- The comparator of the eviction sort (src/api/localmanager.go:188-190):
`fileInfos[i].modTime.Before(fileInfos[j].modTime)`, ascending. -/
def modTimeLE (a b : FileEntry) : Bool := a.modTime ≤ b.modTime

/-- Sort the tracked files by modification time ascending. -/
def sortByModTime (files : List FileEntry) : List FileEntry :=
  files.mergeSort modTimeLE

/-- The capacity-eviction step (src/api/localmanager.go:185-204) over the
supported-extension files of the inbox, assuming every `os.Remove` succeeds:
returns `(deleted, kept)`. When the count exceeds the limit the files are
sorted by modification time ascending and the first `count - limit` are
removed; otherwise nothing is deleted. -/
def evictOldest (limit : Nat) (files : List FileEntry) :
    List FileEntry × List FileEntry :=
  if limit < files.length then
    let sorted := sortByModTime files
    (sorted.take (files.length - limit), sorted.drop (files.length - limit))
  else ([], files)

/-! ### Remote reconciliation (src/api/remotemanager.go) -/

/-- `getLocalFiles` / `getRemoteFiles`: keep the names with a supported
extension. -/
def listSupported (dir : List String) : List String :=
  dir.filter (fun n => supportedExtRemoteContains (goExt n))

/-- Names of the catalog's Surprise-category (0) records. -/
def surpriseNames (t : Table) : List String :=
  (t.filter (fun p => p.category == 0)).map (·.photoName)

/-- The deregistration call of the sync loop (`photoClient.DeletePhoto(name,
0)`, src/api/remotemanager.go:230): a failed delete is logged and skipped. -/
def deregisterPhoto (name : String) (t : Table) : Table :=
  match deletePhoto name 0 t with
  | .ok t' => t'
  | .error _ => t

/-- Result of one `SyncFolder` pass, with the two reconciliation sets the
claims speak about recorded alongside the final directory and catalog. -/
structure SyncResult where
  dir : List String
  catalog : Table
  toDelete : List String
  toDownload : List String
  signal : Bool
deriving Repr

/-- `toDelete := localFiles.Difference(remoteFiles)`
(src/api/remotemanager.go:171). -/
def toDeleteOf (localDir remote : List String) : List String :=
  (listSupported localDir).filter (fun n => !(listSupported remote).contains n)

/-- `toDownload := remoteFiles.Difference(localFiles)`
(src/api/remotemanager.go:172). -/
def toDownloadOf (localDir remote : List String) : List String :=
  (listSupported remote).filter (fun n => !(listSupported localDir).contains n)

/-- The mirror directory after the delete and download loops
(src/api/remotemanager.go:173-198), with every remove and download
succeeding: the `toDelete` files are gone and the `toDownload` objects have
been written. -/
def dirAfterSync (localDir remote : List String) : List String :=
  localDir.filter (fun n => !(toDeleteOf localDir remote).contains n)
    ++ toDownloadOf localDir remote

/-- The catalog after one `SyncFolder` pass
(src/api/remotemanager.go:182-236): each downloaded object is registered,
then the re-listed mirror is registered wholesale, then every Surprise
record whose name is no longer present is deregistered. -/
def catalogAfterSync (localDir remote : List String) (catalog : Table) : Table :=
  let catalog1 := (toDownloadOf localDir remote).foldl
    (fun c n => registerPhotoIfNotExists n 0 c) catalog
  let localFiles2 := listSupported (dirAfterSync localDir remote)
  let catalog2 := localFiles2.foldl (fun c n => registerPhotoIfNotExists n 0 c) catalog1
  let toDereg := (surpriseNames catalog2).filter (fun n => !localFiles2.contains n)
  toDereg.foldl (fun c n => deregisterPhoto n c) catalog2

/-- `SyncFolder` (src/api/remotemanager.go:160-243) under the claim's
no-transient-failure assumption: list both sides (supported extensions
only), delete `local − remote`, download and register `remote − local`,
re-list, register every present file, deregister catalog names no longer
present, and signal iff something was deleted or downloaded. -/
def syncFolder (localDir remote : List String) (catalog : Table) : SyncResult :=
  ⟨dirAfterSync localDir remote,
   catalogAfterSync localDir remote catalog,
   toDeleteOf localDir remote,
   toDownloadOf localDir remote,
   !(toDeleteOf localDir remote).isEmpty || !(toDownloadOf localDir remote).isEmpty⟩

/-! ### Slideshow orchestrator (src/slideshow/slideshow.go) -/

/-- The orphan-pruning correspondence test of `rotateImages`
(src/slideshow/slideshow.go:163-169): some source entry's
`strings.Trim(name, filepath.Ext(name))` is a string prefix of the artifact
name. -/
def artifactFound (sources : List String) (photoName : String) : Bool :=
  sources.any (fun e => (goTrim e (goExt e)).toList.isPrefixOf photoName.toList)

/-- The prune loop of `rotateImages` (src/slideshow/slideshow.go:141-177):
every display-directory entry without a matching source entry is removed;
the kept entries are returned. -/
def pruneOrphans (sources photos : List String) : List String :=
  photos.filter (fun photoName => artifactFound sources photoName)

/-- Modelled from the spec's words ("matched by filename prefix before the
extension"): the source's name with its extension suffix removed is a prefix
of the artifact name. For comparison with `artifactFound`. -/
def specCorresponds (source artifact : String) : Bool :=
  (goTrimSuffix source (goExt source)).toList.isPrefixOf artifact.toList

/-- One poll of the readiness-confirmation loop (`checkImvWayland`):
the check itself failed, or reported not-running, or reported running. -/
inductive Poll where
  | checkErr
  | notRunning
  | running
deriving Repr, DecidableEq

/-- `checkRetries` (src/slideshow/slideshow.go:337). -/
def checkRetries : Nat := 30

/-- The confirmation loop of `RestartSlideshow`
(src/slideshow/slideshow.go:378-399) over a finite observed prefix of poll
outcomes; `none` means the loop was still spinning past the observed polls.
A check error only bumps the retry counter; a not-running answer bumps it
unless the bound is already reached, in which case the loop returns success;
a running answer breaks out with success. -/
def confirmLoop : List Poll → Nat → Option Unit
  | [], _ => none
  | p :: rest, retries =>
    match p with
    | .checkErr => confirmLoop rest (retries + 1)
    | .notRunning =>
      if checkRetries - 1 ≤ retries then some () else confirmLoop rest (retries + 1)
    | .running => some ()

/-- External outcomes one `RestartSlideshow` call can encounter. -/
structure RestartEnv where
  rootPathSet : Bool
  mkdirPhotosOk : Bool
  mkdirSurpriseOk : Bool
  killOk : Bool
  imgPathsEmpty : Bool
  startMkdirOk : Bool
  startOk : Bool
  polls : List Poll
deriving Repr

/-- Error result of `clearImgpArtifacts` (src/slideshow/slideshow.go:22-54):
an unreadable directory is skipped and every per-file removal failure is
logged; the function's only return value is `nil`. -/
def clearImgpArtifactsErr : Option String := none

/-- Error result of `rotateImages` (src/slideshow/slideshow.go:62-180):
unreadable directories are skipped, every per-image resize/rotate failure is
logged and skipped, orphan removals ignore their errors; the function's only
return value is `nil`. -/
def rotateImagesErr : Option String := none

/-- Error result of `moveRotatedImages` (src/slideshow/slideshow.go:218-242):
fails only when creating `photos/` or `photos/surprise/` fails; individual
file moves (`moveDirFiles`) log and continue. -/
def moveRotatedImagesErr (mkdirPhotosOk mkdirSurpriseOk : Bool) : Option String :=
  if !mkdirPhotosOk then some "failed to create photos directory"
  else if !mkdirSurpriseOk then some "failed to create photos/surprise directory"
  else none

/-- Error result of `killImvWayland` (src/slideshow/slideshow.go:268-275):
`pkill` reports an error when no process was found. -/
def killImvWaylandErr (killOk : Bool) : Option String :=
  if killOk then none else some "imv-wayland not running or already killed"

/-- Error result of `startImvWayland` (src/slideshow/slideshow.go:294-333):
with an empty path list the `photos/` directory is created first (that
failure is returned), then the viewer process launch itself can fail. -/
def startImvWaylandErr (imgPathsEmpty startMkdirOk startOk : Bool) : Option String :=
  if imgPathsEmpty && !startMkdirOk then some "failed to create photos directory"
  else if !startOk then some "failed to start imv-wayland"
  else none

/-- `RestartSlideshow` (src/slideshow/slideshow.go:341-401): the sequence of
steps with each step's modelled error result; the kill step's error is only
logged; after a successful start the confirmation loop runs and its outcome
is returned as success. `none` models a call still inside the confirmation
loop after the observed polls. -/
def restartSlideshow (env : RestartEnv) : Option (Except String Unit) :=
  if !env.rootPathSet then
    some (.error "DPF_ROOT_PATH environment variable is required")
  else
    match clearImgpArtifactsErr with
    | some e => some (.error ("error clearing imgp artifacts, " ++ e))
    | none =>
      match rotateImagesErr with
      | some e => some (.error ("error rotating images, " ++ e))
      | none =>
        match moveRotatedImagesErr env.mkdirPhotosOk env.mkdirSurpriseOk with
        | some e => some (.error ("error moving rotated images, " ++ e))
        | none =>
          let _ := killImvWaylandErr env.killOk
          match startImvWaylandErr env.imgPathsEmpty env.startMkdirOk env.startOk with
          | some e => some (.error ("failed to restart slideshow: " ++ e))
          | none => (confirmLoop env.polls 0).map (fun _ => .ok ())

/-- An environment where every step succeeds but the viewer is never
observed alive: the readiness retries are exhausted. -/
def exhaustEnv : RestartEnv :=
  ⟨true, true, true, false, false, true, true,
    List.replicate checkRetries Poll.notRunning⟩

/-- An environment where creating the display directory fails while the
viewer launch itself would succeed. -/
def badMoveEnv : RestartEnv :=
  ⟨true, false, true, true, false, true, true, [Poll.running]⟩

/-! ## Theorems -/

theorem getPhoto_mem {name : String} {category : Int} {t : Table} {p : Photo}
    (h : getPhoto name category t = some p) :
    p ∈ t ∧ p.photoName = name ∧ p.category = category := by
  have hm := List.mem_of_find?_eq_some h
  have hp := List.find?_some h
  simp only [Bool.and_eq_true, beq_iff_eq] at hp
  exact ⟨hm, hp.1, hp.2⟩

theorem updatePhotoOrder_ok {name : String} {newOrder category : Int} {t : Table}
    {p : Photo} (hp : getPhoto name category t = some p) (hne : p.order ≠ newOrder) :
    updatePhotoOrder name newOrder category t =
      Except.ok (setOrderByName name newOrder
        (if p.order < newOrder then shiftDown category p.order newOrder t
         else shiftUp category newOrder p.order t)) := by
  unfold updatePhotoOrder
  rw [hp]
  simp [hne]

theorem supportedExtContains_iff (e : String) :
    supportedExtContains e = true ↔ e ∈ supportedExtList := by
  simp [supportedExtContains]

theorem confirmLoop_map_ok_ne_error (polls : List Poll) (r : Nat) (e : String) :
    (confirmLoop polls r).map (fun _ => (Except.ok () : Except String Unit)) ≠
      some (Except.error e) := by
  cases confirmLoop polls r <;> simp

/-- C8 (counterexample): the upload/registration extension check is not
case-insensitive — `x.Jpg` lower-cases to the supported `.jpg` but is
rejected, refuting the claim's "any case mixture ... is accepted". -/
theorem supportedExt_mixed_case_rejected :
    caseInsensitiveExtOk "x.Jpg" = true ∧ uploadExtOk "x.Jpg" = false := by
  exact ⟨by decide, by decide⟩

/-- C8 (amended): the predicate used by upload validation and registration
accepts a filename iff its `filepath.Ext` extension is literally one of
`.jpeg, .jpg, .JPEG, .JPG, .png, .PNG` (the all-lowercase and all-uppercase
spellings only); every accepted extension does lower-case into
`{.jpg, .jpeg, .png}`, and the remote reconciliation engine's own copy of
the set decides exactly the same predicate. -/
theorem supportedExt_exact_literal_match (name : String) :
    (uploadExtOk name = true ↔ goExt name ∈ supportedExtList)
    ∧ (uploadExtOk name = true → strLower (goExt name) ∈ [".jpg", ".jpeg", ".png"])
    ∧ (∀ e, supportedExtRemoteContains e = supportedExtContains e) := by
  refine ⟨by simp [uploadExtOk, supportedExtContains], fun h => ?_, fun e => rfl⟩
  rw [uploadExtOk, supportedExtContains_iff] at h
  simp only [supportedExtList, List.mem_cons, List.not_mem_nil, or_false] at h
  rcases h with h | h | h | h | h | h <;> rw [h] <;> decide

/-- C8 (witness): the all-uppercase `.JPEG` is accepted and lower-cases into
the spec's three extensions. -/
theorem supportedExt_exact_literal_match_witness :
    uploadExtOk "a.JPEG" = true ∧ strLower (goExt "a.JPEG") ∈ [".jpg", ".jpeg", ".png"] :=
  ⟨by decide, (supportedExt_exact_literal_match "a.JPEG").2.1 (by decide)⟩

/-- C7 (code bug): the prune step of `rotateImages` matches a source to an
artifact through `strings.Trim(name, filepath.Ext(name))`, a character-set
trim that also eats leading extension characters: for source `pat.jpg` the
trim yields `at`, which is not a prefix of the artifact `pat_IMGP.jpg`, so
the artifact is deleted (kept list empty) even though its source image
exists — contradicting both the spec and the loop's own comment ("clean up
any rotated images in final output if they are not present in original").
Under the spec's prefix-before-extension correspondence the source does
correspond to the artifact. -/
theorem prune_deletes_artifact_with_live_source :
    goTrim "pat.jpg" (goExt "pat.jpg") = "at"
    ∧ specCorresponds "pat.jpg" "pat_IMGP.jpg" = true
    ∧ artifactFound ["pat.jpg"] "pat_IMGP.jpg" = false
    ∧ pruneOrphans ["pat.jpg"] ["pat_IMGP.jpg"] = [] := by
  exact ⟨by decide, by decide, by decide, by decide⟩

/-- C6 (counterexample): `RestartSlideshow` surfaces an error when creating
the display directory fails in the move step, although the viewer process
could have been launched (`startOk` is true) — refuting "returns an error
only when the viewer process could not be launched at all". -/
theorem restart_surfaces_move_error :
    restartSlideshow badMoveEnv =
      some (Except.error "error moving rotated images, failed to create photos directory")
    ∧ badMoveEnv.startOk = true ∧ badMoveEnv.rootPathSet = true :=
  ⟨rfl, rfl, rfl⟩

/-- C6 (amended): `RestartSlideshow` returns an error exactly when the root
path is unset, a display-directory creation fails (in the move step, or in
the start step's default-ordering path), or the viewer launch fails; the
clear, transform and prune steps, per-file moves and a failing kill never
surface one, and exhausting the readiness-confirmation retries without ever
observing a live process still returns success. -/
theorem restart_error_characterization (env : RestartEnv) :
    ((∃ e, restartSlideshow env = some (Except.error e)) ↔
      (env.rootPathSet = false ∨ env.mkdirPhotosOk = false
        ∨ env.mkdirSurpriseOk = false
        ∨ (env.imgPathsEmpty = true ∧ env.startMkdirOk = false)
        ∨ env.startOk = false))
    ∧ restartSlideshow exhaustEnv = some (Except.ok ()) := by
  constructor
  · obtain ⟨rp, mp, ms, k, ie, smk, so, polls⟩ := env
    cases rp <;> cases mp <;> cases ms <;> cases ie <;> cases smk <;> cases so <;>
      simp [restartSlideshow, moveRotatedImagesErr, startImvWaylandErr,
        clearImgpArtifactsErr, rotateImagesErr, killImvWaylandErr,
        confirmLoop_map_ok_ne_error, fun e => confirmLoop_map_ok_ne_error polls 0 e]
  · rfl

/-- C2 (confirmed): `UpdatePhotoOrder` fails when the record does not exist,
is a no-op when the new order equals the current one, and otherwise, for
every record of the same category, decrements the span `(old, new]` when
moving higher, increments `[new, old)` when moving lower, leaves the
category's other records unchanged and sets the target's order to `newOrder`
(`reorderedRow`); on orders `[0,1,2,3]`, moving the record at order 1 to
order 3 yields orders `[0,3,1,2]` row-wise, i.e. `[0,2,3,1]`-equivalent. -/
theorem updatePhotoOrder_reorder_semantics (name : String) (newOrder category : Int)
    (t : Table) :
    (getPhoto name category t = none →
      ∃ e, updatePhotoOrder name newOrder category t = Except.error e)
    ∧ (∀ p, getPhoto name category t = some p → p.order = newOrder →
      updatePhotoOrder name newOrder category t = Except.ok t)
    ∧ (∀ p, getPhoto name category t = some p → p.order ≠ newOrder →
      ∃ t', updatePhotoOrder name newOrder category t = Except.ok t'
        ∧ t'.length = t.length
        ∧ ∀ i (hi : i < t.length) (hi' : i < t'.length),
            reorderedRow name category p.order newOrder (t.get ⟨i, hi⟩) (t'.get ⟨i, hi'⟩))
    ∧ updatePhotoOrder "b.jpg" 3 1
        [⟨"a.jpg",1,0⟩, ⟨"b.jpg",1,1⟩, ⟨"c.jpg",1,2⟩, ⟨"d.jpg",1,3⟩]
      = Except.ok [⟨"a.jpg",1,0⟩, ⟨"b.jpg",1,3⟩, ⟨"c.jpg",1,1⟩, ⟨"d.jpg",1,2⟩] := by
  refine ⟨fun h => ?_, fun p hp he => ?_, fun p hp hne => ?_, rfl⟩
  · unfold updatePhotoOrder
    rw [h]
    exact ⟨_, rfl⟩
  · unfold updatePhotoOrder
    rw [hp]
    simp [he]
  · refine ⟨_, updatePhotoOrder_ok hp hne, ?_, ?_⟩
    · by_cases hdir : p.order < newOrder <;>
        simp [hdir, setOrderByName, shiftDown, shiftUp]
    · intro i hi hi'
      by_cases hdir : p.order < newOrder
      · have hq' : (setOrderByName name newOrder
            (if p.order < newOrder then shiftDown category p.order newOrder t
             else shiftUp category newOrder p.order t)).get ⟨i, hi'⟩ =
           (fun q : Photo =>
              if q.photoName = name then ⟨q.photoName, q.category, newOrder⟩ else q)
           ((fun q : Photo =>
              if q.category = category ∧ p.order < q.order ∧ q.order ≤ newOrder
              then ⟨q.photoName, q.category, q.order - 1⟩ else q) (t.get ⟨i, hi⟩)) := by
          simp [hdir, setOrderByName, shiftDown, List.get_eq_getElem, List.getElem_map]
        rw [hq']
        set q := t.get ⟨i, hi⟩ with hq
        unfold reorderedRow
        by_cases hn : q.photoName = name <;>
          by_cases hc : q.category = category <;>
          by_cases hw : p.order < q.order ∧ q.order ≤ newOrder <;>
          simp [hn, hc, hw, hdir] <;> omega
      · have hq' : (setOrderByName name newOrder
            (if p.order < newOrder then shiftDown category p.order newOrder t
             else shiftUp category newOrder p.order t)).get ⟨i, hi'⟩ =
           (fun q : Photo =>
              if q.photoName = name then ⟨q.photoName, q.category, newOrder⟩ else q)
           ((fun q : Photo =>
              if q.category = category ∧ newOrder ≤ q.order ∧ q.order < p.order
              then ⟨q.photoName, q.category, q.order + 1⟩ else q) (t.get ⟨i, hi⟩)) := by
          simp [hdir, setOrderByName, shiftUp, List.get_eq_getElem, List.getElem_map]
        rw [hq']
        set q := t.get ⟨i, hi⟩ with hq
        unfold reorderedRow
        by_cases hn : q.photoName = name <;>
          by_cases hc : q.category = category <;>
          by_cases hw : newOrder ≤ q.order ∧ q.order < p.order <;>
          simp [hn, hc, hw, hdir] <;> omega

/-- C3 (confirmed): the final assignment of a successful, order-changing
`UpdatePhotoOrder` matches rows by photo name only (no category filter), so
every record carrying the target's name — in particular a same-named record
of the other category — ends with its order set to `newOrder`. The concrete
case shows the category-0 record `n.jpg` dragged from order 0 to order 1 by
a reorder within category 1. -/
theorem updatePhotoOrder_cross_category (name : String) (newOrder category : Int)
    (t : Table) :
    (∀ p, getPhoto name category t = some p → p.order ≠ newOrder →
      ∃ t', updatePhotoOrder name newOrder category t = Except.ok t'
        ∧ t'.length = t.length
        ∧ ∀ i (hi : i < t.length) (hi' : i < t'.length),
            (t.get ⟨i, hi⟩).photoName = name →
              (t'.get ⟨i, hi'⟩).order = newOrder
              ∧ (t'.get ⟨i, hi'⟩).category = (t.get ⟨i, hi⟩).category)
    ∧ updatePhotoOrder "n.jpg" 1 1 [⟨"n.jpg",1,0⟩, ⟨"m.jpg",1,1⟩, ⟨"n.jpg",0,0⟩]
      = Except.ok [⟨"n.jpg",1,1⟩, ⟨"m.jpg",1,0⟩, ⟨"n.jpg",0,1⟩] := by
  refine ⟨fun p hp hne => ⟨_, updatePhotoOrder_ok hp hne, ?_, ?_⟩, rfl⟩
  · by_cases hdir : p.order < newOrder <;>
      simp [hdir, setOrderByName, shiftDown, shiftUp]
  · intro i hi hi' hn
    rw [List.get_eq_getElem] at hn
    by_cases hdir : p.order < newOrder
    · by_cases hw : t[i].category = category ∧ p.order < t[i].order ∧ t[i].order ≤ newOrder <;>
        simp [hdir, hw, setOrderByName, shiftDown, List.get_eq_getElem,
          List.getElem_map, hn]
    · by_cases hw : t[i].category = category ∧ newOrder ≤ t[i].order ∧ t[i].order < p.order <;>
        simp [hdir, hw, setOrderByName, shiftUp, List.get_eq_getElem,
          List.getElem_map, hn]

/-- C9 (confirmed): `DeletePhoto` errors when no record matches the primary
key, otherwise removes exactly the matching record(s) of that key — every
other record survives verbatim, orders included — and performs no
re-compaction: deleting `a.jpg` from the dense orders `{0,1}` leaves the
single record at order 1, a non-dense set. -/
theorem deletePhoto_removes_exactly_key (name : String) (category : Int) (t : Table) :
    ((∀ p ∈ t, ¬(p.photoName = name ∧ p.category = category)) →
      ∃ e, deletePhoto name category t = Except.error e)
    ∧ ((∃ p ∈ t, p.photoName = name ∧ p.category = category) →
      deletePhoto name category t =
        Except.ok (t.filter (fun q => !(q.photoName == name && q.category == category))))
    ∧ (∀ t', deletePhoto name category t = Except.ok t' →
        ∀ q ∈ t, ¬(q.photoName = name ∧ q.category = category) → q ∈ t')
    ∧ deletePhoto "a.jpg" 1 [⟨"a.jpg",1,0⟩, ⟨"b.jpg",1,1⟩] = Except.ok [⟨"b.jpg",1,1⟩]
    ∧ ¬ dense 1 [⟨"b.jpg",1,1⟩] := by
  refine ⟨fun h => ?_, fun h => ?_, fun t' h q hq hnq => ?_, rfl, by decide⟩
  · have hk : t.filter (fun q => !(q.photoName == name && q.category == category)) = t := by
      rw [List.filter_eq_self]
      intro a ha
      simp only [Bool.not_eq_eq_eq_not, Bool.not_true, Bool.and_eq_false_iff]
      have := h a ha
      by_cases h1 : a.photoName = name
      · exact Or.inr (by simp [beq_eq_false_iff_ne]; exact fun hc => this ⟨h1, hc⟩)
      · exact Or.inl (by simp [beq_eq_false_iff_ne]; exact h1)
    unfold deletePhoto
    rw [hk]
    simp
  · obtain ⟨p, hm, h1, h2⟩ := h
    have hlt : (t.filter
        (fun q => !(q.photoName == name && q.category == category))).length < t.length := by
      rw [List.length_filter_lt_length_iff_exists]
      exact ⟨p, hm, by simp [h1, h2]⟩
    unfold deletePhoto
    simp only [Nat.beq_eq_true_eq]
    rw [if_neg (by omega)]
  · unfold deletePhoto at h
    by_cases hb : (List.filter
        (fun p => !(p.photoName == name && p.category == category)) t).length = t.length
    · rw [if_pos (by simpa using hb)] at h
      cases h
    · rw [if_neg (by simpa using hb)] at h
      cases h
      rw [List.mem_filter]
      refine ⟨hq, ?_⟩
      simp only [Bool.not_eq_eq_eq_not, Bool.not_true, Bool.and_eq_false_iff]
      by_cases h1 : q.photoName = name
      · exact Or.inr (by simp [beq_eq_false_iff_ne]; exact fun hc => hnq ⟨h1, hc⟩)
      · exact Or.inl (by simp [beq_eq_false_iff_ne]; exact h1)

theorem photoExists_iff (name : String) (category : Int) (t : Table) :
    photoExists name category t = true ↔
      ∃ p ∈ t, p.photoName = name ∧ p.category = category := by
  simp [photoExists, List.any_eq_true, Bool.and_eq_true, beq_iff_eq]

theorem mem_surpriseNames (x : String) (t : Table) :
    x ∈ surpriseNames t ↔ ∃ p ∈ t, p.category = 0 ∧ p.photoName = x := by
  simp only [surpriseNames, List.mem_map, List.mem_filter, beq_iff_eq]
  constructor
  · rintro ⟨p, ⟨hm, hc⟩, rfl⟩
    exact ⟨p, hm, hc, rfl⟩
  · rintro ⟨p, hm, hc, rfl⟩
    exact ⟨p, ⟨hm, hc⟩, rfl⟩

theorem mem_surpriseNames_register (x n : String) (t : Table) :
    x ∈ surpriseNames (registerPhotoIfNotExists n 0 t) ↔
      x ∈ surpriseNames t ∨ (supportedExtContains (goExt n) = true ∧ x = n) := by
  unfold registerPhotoIfNotExists
  by_cases hs : supportedExtContains (goExt n) = true
  · rw [if_neg (by simp [hs])]
    by_cases he : photoExists n 0 t = true
    · rw [if_pos he]
      constructor
      · exact fun h => Or.inl h
      · rintro (h | ⟨-, rfl⟩)
        · exact h
        · rw [mem_surpriseNames]
          obtain ⟨p, hm, h1, h2⟩ := (photoExists_iff _ 0 t).mp he
          exact ⟨p, hm, h2, h1⟩
    · rw [if_neg he]
      unfold insertPhoto
      rw [if_neg (by simpa using he)]
      rw [mem_surpriseNames, mem_surpriseNames]
      constructor
      · rintro ⟨p, hm, hc, rfl⟩
        rw [List.mem_append] at hm
        rcases hm with hm | hm
        · exact Or.inl ⟨p, hm, hc, rfl⟩
        · simp only [List.mem_singleton] at hm
          subst hm
          exact Or.inr ⟨hs, rfl⟩
      · rintro (⟨p, hm, hc, rfl⟩ | ⟨-, rfl⟩)
        · exact ⟨p, List.mem_append.mpr (Or.inl hm), hc, rfl⟩
        · exact ⟨⟨_, 0, getMaxOrder 0 t⟩, List.mem_append.mpr (Or.inr (by simp)), rfl, rfl⟩
  · rw [if_pos (by simpa using hs)]
    simp [hs]

theorem mem_surpriseNames_register_fold (x : String) (L : List String) (t : Table) :
    x ∈ surpriseNames (L.foldl (fun c n => registerPhotoIfNotExists n 0 c) t) ↔
      x ∈ surpriseNames t ∨ (x ∈ L ∧ supportedExtContains (goExt x) = true) := by
  induction L generalizing t with
  | nil => simp
  | cons n L ih =>
    simp only [List.foldl_cons, ih, mem_surpriseNames_register, List.mem_cons]
    constructor
    · rintro ((h | ⟨hs, rfl⟩) | ⟨hl, hs⟩)
      · exact Or.inl h
      · exact Or.inr ⟨Or.inl rfl, hs⟩
      · exact Or.inr ⟨Or.inr hl, hs⟩
    · rintro (h | ⟨(rfl | hl), hs⟩)
      · exact Or.inl (Or.inl h)
      · exact Or.inl (Or.inr ⟨hs, rfl⟩)
      · exact Or.inr ⟨hl, hs⟩

theorem deregisterPhoto_eq (n : String) (t : Table) :
    deregisterPhoto n t = t.filter (fun p => !(p.photoName == n && p.category == 0)) := by
  unfold deregisterPhoto deletePhoto
  by_cases hb : ((t.filter (fun p => !(p.photoName == n && p.category == 0))).length
      == t.length) = true
  · rw [if_pos hb]
    have heq : t.filter (fun p => !(p.photoName == n && p.category == 0)) = t :=
      (List.filter_sublist t).eq_of_length (by simpa using hb)
    rw [heq]
  · rw [if_neg hb]

theorem mem_surpriseNames_dereg (x n : String) (t : Table) :
    x ∈ surpriseNames (deregisterPhoto n t) ↔ x ∈ surpriseNames t ∧ x ≠ n := by
  rw [deregisterPhoto_eq, mem_surpriseNames, mem_surpriseNames]
  constructor
  · rintro ⟨p, hm, hc, rfl⟩
    rw [List.mem_filter] at hm
    obtain ⟨hm, hp⟩ := hm
    simp only [Bool.not_eq_eq_eq_not, Bool.not_true, Bool.and_eq_false_iff,
      beq_eq_false_iff_ne, ne_eq] at hp
    refine ⟨⟨p, hm, hc, rfl⟩, ?_⟩
    rcases hp with hp | hp
    · exact hp
    · exact absurd hc hp
  · rintro ⟨⟨p, hm, hc, rfl⟩, hne⟩
    refine ⟨p, ?_, hc, rfl⟩
    rw [List.mem_filter]
    refine ⟨hm, ?_⟩
    simp only [Bool.not_eq_eq_eq_not, Bool.not_true, Bool.and_eq_false_iff,
      beq_eq_false_iff_ne, ne_eq]
    exact Or.inl hne

theorem mem_surpriseNames_dereg_fold (x : String) (D : List String) (t : Table) :
    x ∈ surpriseNames (D.foldl (fun c n => deregisterPhoto n c) t) ↔
      x ∈ surpriseNames t ∧ x ∉ D := by
  induction D generalizing t with
  | nil => simp
  | cons n D ih =>
    simp only [List.foldl_cons, ih, mem_surpriseNames_dereg, List.mem_cons]
    constructor
    · rintro ⟨⟨h, hne⟩, hnd⟩
      exact ⟨h, fun hc => hc.elim hne hnd⟩
    · rintro ⟨h, hne⟩
      exact ⟨⟨h, fun hc => hne (Or.inl hc)⟩, fun hc => hne (Or.inr hc)⟩

theorem mem_filter_not_contains (x : String) (l l2 : List String) :
    x ∈ l.filter (fun n => !l2.contains n) ↔ x ∈ l ∧ x ∉ l2 := by
  simp [List.mem_filter, List.contains, List.elem_eq_mem]

theorem mem_listSupported (x : String) (dir : List String) :
    x ∈ listSupported dir ↔ x ∈ dir ∧ supportedExtContains (goExt x) = true := by
  have he : ∀ e, supportedExtRemoteContains e = supportedExtContains e := fun e => rfl
  simp [listSupported, List.mem_filter, he]

/-- C4 (confirmed): one `SyncFolder` pass with no transient failures deletes
exactly `local − remote`, downloads exactly `remote − local` (both over the
supported-extension listings), and afterwards the mirror's supported
listing and the catalog's Surprise-category names both equal the remote
set; the spec's `{a.jpg, b.jpg}` vs `{b.jpg, c.jpg}` example is included
concretely. -/
theorem sync_convergence (localDir remote : List String) (catalog : Table) :
    (∀ x, x ∈ (syncFolder localDir remote catalog).toDelete ↔
      x ∈ listSupported localDir ∧ x ∉ listSupported remote)
    ∧ (∀ x, x ∈ (syncFolder localDir remote catalog).toDownload ↔
      x ∈ listSupported remote ∧ x ∉ listSupported localDir)
    ∧ (∀ x, x ∈ listSupported (syncFolder localDir remote catalog).dir ↔
      x ∈ listSupported remote)
    ∧ (∀ x, x ∈ surpriseNames (syncFolder localDir remote catalog).catalog ↔
      x ∈ listSupported remote)
    ∧ (syncFolder ["a.jpg", "b.jpg"] ["b.jpg", "c.jpg"] []).toDelete = ["a.jpg"]
    ∧ (syncFolder ["a.jpg", "b.jpg"] ["b.jpg", "c.jpg"] []).toDownload = ["c.jpg"]
    ∧ listSupported (syncFolder ["a.jpg", "b.jpg"] ["b.jpg", "c.jpg"] []).dir
      = ["b.jpg", "c.jpg"]
    ∧ surpriseNames (syncFolder ["a.jpg", "b.jpg"] ["b.jpg", "c.jpg"] []).catalog
      = ["c.jpg", "b.jpg"] := by
  have hdel : ∀ x, x ∈ toDeleteOf localDir remote ↔
      x ∈ listSupported localDir ∧ x ∉ listSupported remote := fun x =>
    mem_filter_not_contains x _ _
  have hdl : ∀ x, x ∈ toDownloadOf localDir remote ↔
      x ∈ listSupported remote ∧ x ∉ listSupported localDir := fun x =>
    mem_filter_not_contains x _ _
  have hdir : ∀ x, x ∈ listSupported (dirAfterSync localDir remote) ↔
      x ∈ listSupported remote := by
    intro x
    unfold dirAfterSync
    simp only [mem_listSupported, List.mem_append, mem_filter_not_contains, hdel, hdl]
    tauto
  have hcat : ∀ x, x ∈ surpriseNames (catalogAfterSync localDir remote catalog) ↔
      x ∈ listSupported remote := by
    intro x
    have hsu : x ∈ listSupported remote → supportedExtContains (goExt x) = true :=
      fun h => ((mem_listSupported x remote).mp h).2
    unfold catalogAfterSync
    simp only [mem_surpriseNames_dereg_fold, mem_surpriseNames_register_fold,
      mem_filter_not_contains, hdir, hdl]
    tauto
  exact ⟨hdel, hdl, hdir, hcat, by decide, by decide, by decide, by decide⟩

theorem sortByModTime_sorted (files : List FileEntry) :
    List.Pairwise (fun a b : FileEntry => a.modTime ≤ b.modTime) (sortByModTime files) := by
  have h := @List.sorted_mergeSort _ modTimeLE
    (fun a b c hab hbc => by
      simp only [modTimeLE, decide_eq_true_eq] at hab hbc ⊢; omega)
    (fun a b => by
      simp only [modTimeLE, Bool.or_eq_true, decide_eq_true_eq]; omega) files
  exact h.imp (fun hab => by simpa [modTimeLE] using hab)

theorem sortByModTime_perm (files : List FileEntry) :
    (sortByModTime files).Perm files :=
  List.mergeSort_perm files modTimeLE

/-- C5 (confirmed): when the supported-extension files of the inbox exceed
the limit, the eviction step sorts them by modification time ascending and
deletes exactly the oldest `count − limit` of them: the deleted and kept
files partition the originals, every deleted file's modification time is at
most every kept file's, and the tracked name count afterwards equals the
limit. Files within the limit (the kept ones) are never deleted. -/
theorem capacity_eviction (limit : Nat) (files : List FileEntry)
    (hcount : limit < files.length)
    (hnames : (files.map (fun f => f.name)).Nodup) :
    (evictOldest limit files).1.length = files.length - limit
    ∧ (evictOldest limit files).2.length = limit
    ∧ ((evictOldest limit files).1 ++ (evictOldest limit files).2).Perm files
    ∧ (∀ d ∈ (evictOldest limit files).1, ∀ k ∈ (evictOldest limit files).2,
        d.modTime ≤ k.modTime)
    ∧ ((files.map (fun f => f.name)).filter
        (fun n => !(((evictOldest limit files).1.map (fun f => f.name)).contains n))).length
      = limit := by
  have hev : evictOldest limit files =
      ((sortByModTime files).take (files.length - limit),
       (sortByModTime files).drop (files.length - limit)) := by
    unfold evictOldest
    rw [if_pos hcount]
  have hlen : (sortByModTime files).length = files.length :=
    (sortByModTime_perm files).length_eq
  have htd : (evictOldest limit files).1 ++ (evictOldest limit files).2
      = sortByModTime files := by
    rw [hev]
    exact List.take_append_drop _ _
  have hperm : ((evictOldest limit files).1 ++ (evictOldest limit files).2).Perm files := by
    rw [htd]; exact sortByModTime_perm files
  have hkl : (evictOldest limit files).2.length = limit := by
    rw [hev]
    simp only [List.length_drop, hlen]
    omega
  refine ⟨?_, hkl, hperm, ?_, ?_⟩
  · rw [hev]
    simp only [List.length_take, hlen]
    omega
  · intro d hd k hk
    have hp : List.Pairwise (fun a b : FileEntry => a.modTime ≤ b.modTime)
        ((evictOldest limit files).1 ++ (evictOldest limit files).2) := by
      rw [htd]; exact sortByModTime_sorted files
    exact (List.pairwise_append.mp hp).2.2 d hd k hk
  · have hnp : (files.map (fun f => f.name)).Perm
        (((evictOldest limit files).1 ++ (evictOldest limit files).2).map (fun f => f.name)) :=
      (hperm.map (fun f => f.name)).symm
    have hnd : (((evictOldest limit files).1 ++ (evictOldest limit files).2).map
        (fun f => f.name)).Nodup := hnp.nodup_iff.mp hnames
    rw [(hnp.filter _).length_eq]
    rw [List.map_append, List.filter_append]
    rw [List.map_append] at hnd
    have hdisj := List.disjoint_of_nodup_append hnd
    have h1 : ((evictOldest limit files).1.map (fun f => f.name)).filter
        (fun n => !(((evictOldest limit files).1.map (fun f => f.name)).contains n)) = [] := by
      rw [List.filter_eq_nil_iff]
      intro a ha
      simp only [List.contains, List.elem_eq_mem, Bool.not_eq_eq_eq_not, Bool.not_true,
        decide_eq_false_iff_not, not_not]
      exact ha
    have h2 : ((evictOldest limit files).2.map (fun f => f.name)).filter
        (fun n => !(((evictOldest limit files).1.map (fun f => f.name)).contains n)) =
        (evictOldest limit files).2.map (fun f => f.name) := by
      rw [List.filter_eq_self]
      intro a ha
      simp only [List.contains, List.elem_eq_mem, Bool.not_eq_eq_eq_not, Bool.not_true,
        decide_eq_false_iff_not]
      exact fun hc => hdisj hc ha
    rw [h1, h2, List.nil_append, List.length_map]
    exact hkl

/-- C5 (witness): limit 2 with three tracked files of increasing
modification time — exactly the oldest (`a.jpg`) is evicted and two files
remain tracked. -/
theorem capacity_eviction_witness :
    (evictOldest 2 [⟨"a.jpg", 1⟩, ⟨"b.jpg", 2⟩, ⟨"c.jpg", 3⟩]).1.length = 3 - 2
    ∧ (evictOldest 2 [⟨"a.jpg", 1⟩, ⟨"b.jpg", 2⟩, ⟨"c.jpg", 3⟩]).2.length = 2 :=
  ⟨(capacity_eviction 2 [⟨"a.jpg", 1⟩, ⟨"b.jpg", 2⟩, ⟨"c.jpg", 3⟩]
      (by decide) (by decide)).1,
   (capacity_eviction 2 [⟨"a.jpg", 1⟩, ⟨"b.jpg", 2⟩, ⟨"c.jpg", 3⟩]
      (by decide) (by decide)).2.1⟩

/-- C10 (confirmed): the playlist built for every change-signal restart
(`GetImgPaths` over `getAllImages`) is exactly the Surprise-category
(category 0) records followed by the Library-category (category 1) records,
each segment a permutation of its category's rows sorted by order
descending — the highest order plays first, order 0 last. -/
theorem playlist_surprise_first_desc (rootPath : String) (t : Table) :
    ∃ s0 s1, getAllImages t = s0 ++ s1
      ∧ s0.Perm (t.filter (fun p => p.category == 0))
      ∧ s1.Perm (t.filter (fun p => p.category == 1))
      ∧ (∀ p ∈ s0, p.category = 0) ∧ (∀ p ∈ s1, p.category = 1)
      ∧ List.Pairwise (fun a b : Photo => b.order ≤ a.order) s0
      ∧ List.Pairwise (fun a b : Photo => b.order ≤ a.order) s1
      ∧ getImgPaths rootPath t = (getAllImages t).map (buildImgPathFromPhoto rootPath) := by
  have hsorted : ∀ (l : List Photo),
      List.Pairwise (fun a b : Photo => b.order ≤ a.order) (l.mergeSort photoDescBy) := by
    intro l
    have h := @List.sorted_mergeSort _ photoDescBy
      (fun a b c hab hbc => by
        simp only [photoDescBy, decide_eq_true_eq] at hab hbc ⊢; omega)
      (fun a b => by
        simp only [photoDescBy, Bool.or_eq_true, decide_eq_true_eq]
        omega) l
    exact h.imp (fun hab => by simpa [photoDescBy] using hab)
  have hmem : ∀ (c : Int) (p : Photo), p ∈ getAllPhotos c t → p.category = c := by
    intro c p hp
    unfold getAllPhotos at hp
    rw [List.Perm.mem_iff (List.mergeSort_perm _ photoDescBy)] at hp
    exact by simpa using (List.mem_filter.mp hp).2
  refine ⟨getAllPhotos 0 t, getAllPhotos 1 t, rfl,
    List.mergeSort_perm _ photoDescBy, List.mergeSort_perm _ photoDescBy,
    fun p hp => hmem 0 p hp, fun p hp => hmem 1 p hp,
    hsorted _, hsorted _, rfl⟩


theorem mem_rangeList (x : Int) (n : Nat) :
    x ∈ rangeList n ↔ 0 ≤ x ∧ x < (n : Int) := by
  unfold rangeList
  simp only [List.mem_map, List.mem_range]
  constructor
  · rintro ⟨i, hi, rfl⟩
    exact ⟨by positivity, by exact_mod_cast hi⟩
  · rintro ⟨h0, hn⟩
    exact ⟨x.toNat, by omega, by omega⟩

theorem rangeList_nodup (n : Nat) : (rangeList n).Nodup :=
  (List.nodup_range n).map (fun a b h => by exact_mod_cast h)

theorem foldl_max_rangeList (n : Nat) :
    (rangeList n).foldl max (-1) = (n : Int) - 1 := by
  induction n with
  | zero => rfl
  | succ n ih =>
    rw [rangeList, List.range_succ, List.map_append, List.foldl_append]
    rw [rangeList] at ih
    rw [ih]
    simp only [List.map_cons, List.map_nil, List.foldl_cons, List.foldl_nil]
    omega

theorem foldl_max_perm {l₁ l₂ : List Int} (h : l₁.Perm l₂) :
    l₁.foldl max (-1) = l₂.foldl max (-1) := by
  have : RightCommutative (max : Int → Int → Int) :=
    ⟨fun b a₁ a₂ => Max.right_comm b a₁ a₂⟩
  exact h.foldl_eq (-1)

theorem getMaxOrder_of_dense {category : Int} {t : Table} (hd : dense category t) :
    getMaxOrder category t = ((ordersOf category t).length : Int) := by
  unfold getMaxOrder
  rw [foldl_max_perm hd, foldl_max_rangeList]
  omega

theorem dense_nodup {category : Int} {t : Table} (hd : dense category t) :
    (ordersOf category t).Nodup :=
  hd.nodup_iff.mpr (rangeList_nodup _)

theorem dense_bounds {category : Int} {t : Table} (hd : dense category t) :
    ∀ o ∈ ordersOf category t, 0 ≤ o ∧ o < ((ordersOf category t).length : Int) := by
  intro o ho
  rw [hd.mem_iff, mem_rangeList] at ho
  exact ho

theorem shiftFn_inj (oldOrder newOrder : Int) :
    Function.Injective (shiftFn oldOrder newOrder) := by
  intro a b h
  unfold shiftFn at h
  split_ifs at h <;> omega

theorem shiftFn_bounds {oldOrder newOrder o n : Int}
    (ho : 0 ≤ oldOrder ∧ oldOrder < n) (hn : 0 ≤ newOrder ∧ newOrder < n)
    (h : 0 ≤ o ∧ o < n) :
    0 ≤ shiftFn oldOrder newOrder o ∧ shiftFn oldOrder newOrder o < n := by
  unfold shiftFn
  split_ifs <;> omega

theorem map_shiftFn_perm {oldOrder newOrder : Int} {n : Nat}
    (ho : 0 ≤ oldOrder ∧ oldOrder < (n : Int))
    (hn : 0 ≤ newOrder ∧ newOrder < (n : Int)) :
    ((rangeList n).map (shiftFn oldOrder newOrder)).Perm (rangeList n) := by
  have hnd : ((rangeList n).map (shiftFn oldOrder newOrder)).Nodup :=
    (rangeList_nodup n).map (shiftFn_inj oldOrder newOrder)
  have hsub : (rangeList n).map (shiftFn oldOrder newOrder) ⊆ rangeList n := by
    intro x hx
    rw [List.mem_map] at hx
    obtain ⟨o, ho', rfl⟩ := hx
    rw [mem_rangeList] at ho' ⊢
    exact shiftFn_bounds ho hn ho'
  have hsp := List.subperm_of_subset hnd hsub
  exact hsp.perm_of_length_le (by simp)


theorem pk_unique {t : Table} (hpk : pkNodup t) {p q : Photo}
    (hp : p ∈ t) (hq : q ∈ t) (hn : p.photoName = q.photoName)
    (hc : p.category = q.category) : p = q := by
  have := List.inj_on_of_nodup_map hpk hp hq (by rw [hn, hc])
  exact this

theorem ordersOf_map {category : Int} {t : Table} {g : Photo → Photo}
    (hcat : ∀ q, (g q).category = q.category) :
    ordersOf category (t.map g) =
      (t.filter (fun q => q.category == category)).map (fun q => (g q).order) := by
  unfold ordersOf
  rw [List.filter_map]
  rw [List.map_map]
  congr 1
  apply List.filter_congr
  intro q hq
  simp [Function.comp, hcat]

theorem updated_orders_eq {name : String} {newOrder category : Int} {t : Table}
    {p : Photo} (hpk : pkNodup t) (hd : dense category t)
    (hp : getPhoto name category t = some p) (hne : p.order ≠ newOrder) :
    ∀ t', updatePhotoOrder name newOrder category t = Except.ok t' →
      ordersOf category t' = (ordersOf category t).map (shiftFn p.order newOrder) := by
  intro t' h
  rw [updatePhotoOrder_ok hp hne] at h
  cases h
  obtain ⟨hpm, hpn, hpc⟩ := getPhoto_mem hp
  have hnodup : (ordersOf category t).Nodup := dense_nodup hd
  have hinj := List.inj_on_of_nodup_map
    (f := fun q : Photo => q.order)
    (l := t.filter (fun q => q.category == category)) hnodup
  have hpfilter : p ∈ t.filter (fun q => q.category == category) := by
    rw [List.mem_filter]
    exact ⟨hpm, by simp [hpc]⟩
  by_cases hdir : p.order < newOrder
  · rw [if_pos hdir]
    have hmm : setOrderByName name newOrder (shiftDown category p.order newOrder t)
        = t.map ((fun q : Photo =>
            if q.photoName = name then ⟨q.photoName, q.category, newOrder⟩ else q) ∘
          (fun q : Photo =>
            if q.category = category ∧ p.order < q.order ∧ q.order ≤ newOrder
            then ⟨q.photoName, q.category, q.order - 1⟩ else q)) := by
      unfold setOrderByName shiftDown
      rw [List.map_map]
    rw [hmm, ordersOf_map (fun q => by
      simp only [Function.comp]
      split <;> split <;> simp)]
    unfold ordersOf
    rw [List.map_map]
    apply List.map_congr_left
    intro q hq
    have hqm := (List.mem_filter.mp hq).1
    have hqc : q.category = category := by simpa using (List.mem_filter.mp hq).2
    simp only [Function.comp]
    unfold shiftFn
    by_cases hn : q.photoName = name
    · have hqp : q = p := pk_unique hpk hqm hpm (hn.trans hpn.symm) (hqc.trans hpc.symm)
      subst hqp
      have hin : (if q.category = category ∧ q.order < q.order ∧ q.order ≤ newOrder
          then (⟨q.photoName, q.category, q.order - 1⟩ : Photo) else q) = q :=
        if_neg (fun hcond => absurd hcond.2.1 (lt_irrefl _))
      rw [hin, if_pos hn, if_pos rfl]
    · have hqo : q.order ≠ p.order := fun he =>
        hn (by rw [hinj hq hpfilter he]; exact hpn)
      by_cases hw : p.order < q.order ∧ q.order ≤ newOrder
      · have hin : (if q.category = category ∧ p.order < q.order ∧ q.order ≤ newOrder
            then (⟨q.photoName, q.category, q.order - 1⟩ : Photo) else q)
            = ⟨q.photoName, q.category, q.order - 1⟩ := if_pos ⟨hqc, hw.1, hw.2⟩
        rw [hin, if_neg hn, if_neg hqo, if_pos hw]
      · have hin : (if q.category = category ∧ p.order < q.order ∧ q.order ≤ newOrder
            then (⟨q.photoName, q.category, q.order - 1⟩ : Photo) else q) = q :=
          if_neg (fun hcond => hw ⟨hcond.2.1, hcond.2.2⟩)
        rw [hin, if_neg hn, if_neg hqo, if_neg hw, if_neg (fun hcond => by omega)]
  · rw [if_neg hdir]
    have hmm : setOrderByName name newOrder (shiftUp category newOrder p.order t)
        = t.map ((fun q : Photo =>
            if q.photoName = name then ⟨q.photoName, q.category, newOrder⟩ else q) ∘
          (fun q : Photo =>
            if q.category = category ∧ newOrder ≤ q.order ∧ q.order < p.order
            then ⟨q.photoName, q.category, q.order + 1⟩ else q)) := by
      unfold setOrderByName shiftUp
      rw [List.map_map]
    rw [hmm, ordersOf_map (fun q => by
      simp only [Function.comp]
      split <;> split <;> simp)]
    unfold ordersOf
    rw [List.map_map]
    apply List.map_congr_left
    intro q hq
    have hqm := (List.mem_filter.mp hq).1
    have hqc : q.category = category := by simpa using (List.mem_filter.mp hq).2
    simp only [Function.comp]
    unfold shiftFn
    by_cases hn : q.photoName = name
    · have hqp : q = p := pk_unique hpk hqm hpm (hn.trans hpn.symm) (hqc.trans hpc.symm)
      subst hqp
      have hin : (if q.category = category ∧ newOrder ≤ q.order ∧ q.order < q.order
          then (⟨q.photoName, q.category, q.order + 1⟩ : Photo) else q) = q :=
        if_neg (fun hcond => absurd hcond.2.2 (lt_irrefl _))
      rw [hin, if_pos hn, if_pos rfl]
    · have hqo : q.order ≠ p.order := fun he =>
        hn (by rw [hinj hq hpfilter he]; exact hpn)
      by_cases hw : newOrder ≤ q.order ∧ q.order < p.order
      · have hin : (if q.category = category ∧ newOrder ≤ q.order ∧ q.order < p.order
            then (⟨q.photoName, q.category, q.order + 1⟩ : Photo) else q)
            = ⟨q.photoName, q.category, q.order + 1⟩ := if_pos ⟨hqc, hw.1, hw.2⟩
        rw [hin, if_neg hn, if_neg hqo, if_neg (fun hcond => by omega), if_pos hw]
      · have hin : (if q.category = category ∧ newOrder ≤ q.order ∧ q.order < p.order
            then (⟨q.photoName, q.category, q.order + 1⟩ : Photo) else q) = q :=
          if_neg (fun hcond => hw ⟨hcond.2.1, hcond.2.2⟩)
        rw [hin, if_neg hn, if_neg hqo, if_neg (fun hcond => by omega), if_neg hw]


theorem rangeList_succ (n : Nat) :
    rangeList (n + 1) = rangeList n ++ [(n : Int)] := by
  unfold rangeList
  rw [List.range_succ, List.map_append]
  rfl

theorem ordersOf_append_cat {category : Int} (t : Table) (p : Photo)
    (hc : p.category = category) :
    ordersOf category (t ++ [p]) = ordersOf category t ++ [p.order] := by
  unfold ordersOf
  rw [List.filter_append, List.map_append]
  simp [hc]

theorem dense_register (category : Int) (name : String) {t : Table}
    (hd : dense category t) :
    dense category (runOp category t (CatalogOp.register name)) := by
  simp only [runOp]
  unfold registerPhotoIfNotExists
  by_cases hs : supportedExtContains (goExt name) = true
  · rw [if_neg (by simp [hs])]
    by_cases he : photoExists name category t = true
    · rw [if_pos he]
      exact hd
    · rw [if_neg he]
      unfold insertPhoto
      rw [if_neg (by simpa using he)]
      dsimp only
      unfold dense
      rw [ordersOf_append_cat t ⟨name, category, getMaxOrder category t⟩ rfl]
      rw [List.length_append, List.length_singleton, rangeList_succ]
      rw [getMaxOrder_of_dense hd]
      exact hd.append (List.Perm.refl _)
  · rw [if_pos (by simpa using hs)]
    exact hd

theorem pk_register (category : Int) (name : String) {t : Table}
    (hpk : pkNodup t) :
    pkNodup (runOp category t (CatalogOp.register name)) := by
  simp only [runOp]
  unfold registerPhotoIfNotExists
  by_cases hs : supportedExtContains (goExt name) = true
  · rw [if_neg (by simp [hs])]
    by_cases he : photoExists name category t = true
    · rw [if_pos he]
      exact hpk
    · rw [if_neg he]
      unfold insertPhoto
      rw [if_neg (by simpa using he)]
      dsimp only
      unfold pkNodup
      rw [List.map_append]
      refine List.Nodup.append hpk (List.nodup_singleton _) ?_
      intro a ha hb
      simp only [List.map_cons, List.map_nil, List.mem_singleton] at hb
      subst hb
      rw [List.mem_map] at ha
      obtain ⟨q, hq, hkey⟩ := ha
      have : photoExists name category t = true := by
        rw [photoExists_iff]
        exact ⟨q, hq, by
          have h1 := congrArg Prod.fst hkey
          have h2 := congrArg Prod.snd hkey
          exact ⟨h1, h2⟩⟩
      exact he this
  · rw [if_pos (by simpa using hs)]
    exact hpk

theorem pk_preserved_update {name : String} {newOrder category : Int} {t : Table}
    {p : Photo} (hpk : pkNodup t)
    (hp : getPhoto name category t = some p) (hne : p.order ≠ newOrder) :
    ∀ t', updatePhotoOrder name newOrder category t = Except.ok t' → pkNodup t' := by
  intro t' h
  rw [updatePhotoOrder_ok hp hne] at h
  cases h
  unfold pkNodup
  by_cases hdir : p.order < newOrder
  · rw [if_pos hdir]
    unfold setOrderByName shiftDown
    rw [List.map_map, List.map_map]
    have hcg := List.map_congr_left (l := t)
      (g := fun q : Photo => (q.photoName, q.category))
      (f := ((fun q : Photo => (q.photoName, q.category)) ∘
        (fun q : Photo =>
          if q.photoName = name then ⟨q.photoName, q.category, newOrder⟩ else q)) ∘
        (fun q : Photo =>
          if q.category = category ∧ p.order < q.order ∧ q.order ≤ newOrder
          then ⟨q.photoName, q.category, q.order - 1⟩ else q))
      (fun q hq => by
        simp only [Function.comp]
        split <;> split <;> rfl)
    rw [hcg]
    exact hpk
  · rw [if_neg hdir]
    unfold setOrderByName shiftUp
    rw [List.map_map, List.map_map]
    have hcg := List.map_congr_left (l := t)
      (g := fun q : Photo => (q.photoName, q.category))
      (f := ((fun q : Photo => (q.photoName, q.category)) ∘
        (fun q : Photo =>
          if q.photoName = name then ⟨q.photoName, q.category, newOrder⟩ else q)) ∘
        (fun q : Photo =>
          if q.category = category ∧ newOrder ≤ q.order ∧ q.order < p.order
          then ⟨q.photoName, q.category, q.order + 1⟩ else q))
      (fun q hq => by
        simp only [Function.comp]
        split <;> split <;> rfl)
    rw [hcg]
    exact hpk

theorem dense_preserved_update {name : String} {newOrder category : Int} {t : Table}
    {p : Photo} (hpk : pkNodup t) (hd : dense category t)
    (hp : getPhoto name category t = some p) (hne : p.order ≠ newOrder)
    (h0 : 0 ≤ newOrder) (hlt : newOrder < getMaxOrder category t) :
    ∀ t', updatePhotoOrder name newOrder category t = Except.ok t' →
      dense category t' := by
  intro t' h
  have heq := updated_orders_eq hpk hd hp hne t' h
  unfold dense
  rw [heq, List.length_map]
  have hn := getMaxOrder_of_dense hd
  rw [hn] at hlt
  have hbp : 0 ≤ p.order ∧ p.order < ((ordersOf category t).length : Int) := by
    apply dense_bounds hd
    obtain ⟨hpm, hpn, hpc⟩ := getPhoto_mem hp
    unfold ordersOf
    rw [List.mem_map]
    exact ⟨p, List.mem_filter.mpr ⟨hpm, by simp [hpc]⟩, rfl⟩
  exact (hd.map _).trans (map_shiftFn_perm hbp ⟨h0, hlt⟩)

theorem runOp_preserves (category : Int) (t : Table) (op : CatalogOp)
    (hpk : pkNodup t) (hd : dense category t)
    (hv : match op with
      | CatalogOp.register _ => True
      | CatalogOp.reorder _ newOrder =>
          0 ≤ newOrder ∧ newOrder < getMaxOrder category t) :
    dense category (runOp category t op) ∧ pkNodup (runOp category t op) := by
  cases op with
  | register name => exact ⟨dense_register category name hd, pk_register category name hpk⟩
  | reorder name newOrder =>
    obtain ⟨h0, hlt⟩ := hv
    simp only [runOp]
    cases hg : getPhoto name category t with
    | none =>
      unfold updatePhotoOrder
      rw [hg]
      exact ⟨hd, hpk⟩
    | some p =>
      by_cases heq : p.order = newOrder
      · unfold updatePhotoOrder
        rw [hg]
        simp only [heq, if_pos rfl]
        exact ⟨hd, hpk⟩
      · rw [updatePhotoOrder_ok hg heq]
        exact ⟨dense_preserved_update hpk hd hg heq h0 hlt _
            (updatePhotoOrder_ok hg heq),
          pk_preserved_update hpk hg heq _ (updatePhotoOrder_ok hg heq)⟩

theorem density_invariant_aux (category : Int) (pre : List CatalogOp) :
    ∀ (suf : List CatalogOp) (t : Table), pkNodup t → dense category t →
      validOps category t (pre ++ suf) = true →
      dense category (runOps category t pre) := by
  induction pre with
  | nil =>
    intro suf t hpk hd hv
    simpa [runOps] using hd
  | cons op pre ih =>
    intro suf t hpk hd hv
    rw [List.cons_append] at hv
    have hrw : runOps category t (op :: pre)
        = runOps category (runOp category t op) pre := by
      simp [runOps]
    rw [hrw]
    cases op with
    | register name =>
      have htail : validOps category (runOp category t (CatalogOp.register name))
          (pre ++ suf) = true := by
        simpa [validOps] using hv
      obtain ⟨hd', hpk'⟩ :=
        runOp_preserves category t (CatalogOp.register name) hpk hd trivial
      exact ih suf _ hpk' hd' htail
    | reorder name newOrder =>
      unfold validOps at hv
      simp only [Bool.and_eq_true, decide_eq_true_eq] at hv
      obtain ⟨⟨h0, hlt⟩, htail⟩ := hv
      obtain ⟨hd', hpk'⟩ :=
        runOp_preserves category t (CatalogOp.reorder name newOrder) hpk hd ⟨h0, hlt⟩
      exact ih suf _ hpk' hd' htail


/-- C1 (amended): starting from any table satisfying the primary-key
constraint whose category is dense, any sequence of registrations (inserts
at `GetMaxOrder`) and reorder calls whose target order is validated to lie
in `[0, GetMaxOrder)` — the check `handleReorderPhoto` performs before
calling the store — leaves the category's multiset of orders equal to
`{0, ..., n-1}` after every prefix of the sequence. -/
theorem catalog_density_invariant (category : Int) (t : Table) (ops : List CatalogOp)
    (hpk : pkNodup t) (hd : dense category t)
    (hv : validOps category t ops = true) :
    ∀ pre suf, ops = pre ++ suf → dense category (runOps category t pre) := by
  intro pre suf heq
  subst heq
  exact density_invariant_aux category pre suf t hpk hd hv

/-- C1 (witness): two registrations and one in-range reorder from the empty
table keep category 1 dense. -/
theorem catalog_density_invariant_witness :
    dense 1 (runOps 1 [] [CatalogOp.register "a.jpg", CatalogOp.register "b.jpg",
      CatalogOp.reorder "a.jpg" 1]) :=
  catalog_density_invariant 1 []
    [CatalogOp.register "a.jpg", CatalogOp.register "b.jpg", CatalogOp.reorder "a.jpg" 1]
    (by decide) (by decide) (by decide)
    [CatalogOp.register "a.jpg", CatalogOp.register "b.jpg", CatalogOp.reorder "a.jpg" 1]
    [] (List.append_nil _).symm

/-- C1 (counterexample): the store itself does not validate `newOrder`; a
successful `UpdatePhotoOrder` to the out-of-range order 10 on the dense
orders `{0,1,2}` (built by three registrations) succeeds and leaves the
non-dense multiset `{0,10,1}` — refuting the claim as stated for arbitrary
`UpdatePhotoOrder` calls. -/
theorem catalog_density_counterexample :
    runOps 1 [] [CatalogOp.register "a.jpg", CatalogOp.register "b.jpg",
        CatalogOp.register "c.jpg"]
      = [⟨"a.jpg",1,0⟩, ⟨"b.jpg",1,1⟩, ⟨"c.jpg",1,2⟩]
    ∧ dense 1 [⟨"a.jpg",1,0⟩, ⟨"b.jpg",1,1⟩, ⟨"c.jpg",1,2⟩]
    ∧ updatePhotoOrder "b.jpg" 10 1 [⟨"a.jpg",1,0⟩, ⟨"b.jpg",1,1⟩, ⟨"c.jpg",1,2⟩]
      = Except.ok [⟨"a.jpg",1,0⟩, ⟨"b.jpg",1,10⟩, ⟨"c.jpg",1,1⟩]
    ∧ ¬ dense 1 [⟨"a.jpg",1,0⟩, ⟨"b.jpg",1,10⟩, ⟨"c.jpg",1,1⟩] :=
  ⟨rfl, by decide, rfl, by decide⟩


end DPF
